import Mathlib

/-!
Verification of the boggart mutation-testing core against its specification.

The definitions below are a shallow embedding of the Python sources under
`src/boggart/`:

* `core/location.py`    — `Location`, `LocationRange`, `FileLocationRange`;
* `core/replacement.py` — `Replacement` and `Replacement.resolve`;
* `server/sourcefile.py` — line-offset bookkeeping, `line_col_to_offset`,
  `read_line`, `read_chars` and `apply`;
* `core/constraint.py`  — the `IsSingleTerm` constraint;
* `config/languages.py` — the `Languages` catalogue;
* `server/installation.py` — the operator selection of `Installation.mutations`;
* `server/mutant.py`    — the `MutantManager` registry and `generate`.

Python strings are modelled as `List Char` (a Python `str` is a sequence of
characters; slicing `s[a:b]` is `(s.take b).drop a`), Python dicts as
insertion-ordered association lists, and calls to external collaborators
(BugZoo, Rooibos) as explicit parameters describing the collaborator's answer.
-/

namespace Boggart

/-- The character predicate behind Python's `str.isspace` for the ASCII
whitespace the sources manipulate (space, tab, newline, carriage return). -/
def pyIsSpace (c : Char) : Bool := c = ' ' ∨ c = '\t' ∨ c = '\n' ∨ c = '\r'

/-- Python slice `s[a:b]` (for `0 ≤ a ≤ b`): the characters with index
`a ≤ i < b`. -/
def pySlice (s : List Char) (a b : Nat) : List Char := (s.take b).drop a

/-! ## core/location.py -/

/-- `Location` (core/location.py:11-37): a character location, `line` is
1-indexed and `col` 0-indexed. -/
structure Location where
  line : Nat
  col : Nat
deriving DecidableEq, Repr

instance : Inhabited Location := ⟨⟨1, 0⟩⟩

/-- The ordering `Location` actually carries at runtime.  `Location` is
declared `@attr.s(frozen=True, repr=False)`; `attr.s` defaults to generating
the comparison dunders from the attribute tuple `(line, col)` (only `repr` is
switched off), and the generated methods are installed on the class after the
class body, shadowing the `__le__` written in the body (attrs only leaves
user methods alone under `auto_detect`, which this code does not use).  The
generated `__le__` is Python tuple comparison
`(self.line, self.col) <= (other.line, other.col)`. -/
def Location.le (a b : Location) : Prop :=
  a.line < b.line ∨ (a.line = b.line ∧ a.col ≤ b.col)

/-- The attrs-generated `__lt__`: tuple comparison
`(self.line, self.col) < (other.line, other.col)`. -/
def Location.lt (a b : Location) : Prop :=
  a.line < b.line ∨ (a.line = b.line ∧ a.col < b.col)

/-- The `__le__` written in the class body of `Location`
(core/location.py:28-31).  Note its same-line branch tests `col < col`,
not `col <= col`; the method is dead code, shadowed by the attrs-generated
`__le__` (see `Location.le`), and is kept here for reference only. -/
def Location.leManual (a b : Location) : Prop :=
  if a.line = b.line then a.col < b.col else a.line < b.line

instance (a b : Location) : Decidable (Location.le a b) := by
  unfold Location.le; exact inferInstance

instance (a b : Location) : Decidable (Location.lt a b) := by
  unfold Location.lt; exact inferInstance

theorem Location.le_refl (a : Location) : Location.le a a := Or.inr ⟨rfl, Nat.le_refl _⟩

theorem Location.lt_iff_not_le (a b : Location) :
    Location.lt a b ↔ ¬ Location.le b a := by
  unfold Location.lt Location.le; omega

/-- The shadowed, hand-written `__le__` is not even reflexive: this is why the
attrs shadowing matters. -/
theorem Location.leManual_not_refl : ¬ Location.leManual ⟨1, 2⟩ ⟨1, 2⟩ := by
  unfold Location.leManual; simp

/-- C10. The comparison on `Location` values (the attrs-generated ordering by
the attribute tuple, see `Location.le`) is a total order by `(line, column)`:
reflexive, antisymmetric, transitive and total, and `a ≤ b` holds exactly when
`(a.line, a.col)` is lexicographically less than or equal to
`(b.line, b.col)`. -/
theorem location_le_is_total_order_by_line_col :
    (∀ a : Location, Location.le a a) ∧
    (∀ a b : Location, Location.le a b → Location.le b a → a = b) ∧
    (∀ a b c : Location, Location.le a b → Location.le b c → Location.le a c) ∧
    (∀ a b : Location, Location.le a b ∨ Location.le b a) ∧
    (∀ a b : Location,
      Location.le a b ↔ toLex (a.line, a.col) ≤ toLex (b.line, b.col)) := by
  refine ⟨Location.le_refl, ?_, ?_, ?_, ?_⟩
  · intro a b hab hba
    obtain ⟨al, ac⟩ := a; obtain ⟨bl, bc⟩ := b
    simp only [Location.le] at hab hba
    simp only [Location.mk.injEq]
    omega
  · intro a b c hab hbc
    obtain ⟨al, ac⟩ := a; obtain ⟨bl, bc⟩ := b; obtain ⟨cl, cc⟩ := c
    simp only [Location.le] at *
    omega
  · intro a b
    obtain ⟨al, ac⟩ := a; obtain ⟨bl, bc⟩ := b
    simp only [Location.le]
    omega
  · intro a b
    rw [Prod.Lex.le_iff]
    rfl

/-- Witness for C10: the order-axioms applied at concrete locations. -/
theorem location_le_total_order_witness :
    Location.le ⟨2, 5⟩ ⟨3, 1⟩ ∧ (⟨1, 4⟩ : Location) = ⟨1, 4⟩ := by
  constructor
  · exact (location_le_is_total_order_by_line_col.2.2.1 ⟨2, 5⟩ ⟨2, 9⟩ ⟨3, 1⟩
      (by decide) (by decide))
  · exact (location_le_is_total_order_by_line_col.2.1 ⟨1, 4⟩ ⟨1, 4⟩
      (by decide) (by decide))

/-- `LocationRange` (core/location.py:69-98): a continuous range of source
locations. -/
structure LocationRange where
  start : Location
  stop : Location
deriving DecidableEq, Repr

/-- `LocationRange.__contains__` (core/location.py:90-98): a location is in
the range iff it is at or after `start` and strictly before `stop`
(half-open). -/
def LocationRange.containsLoc (r : LocationRange) (loc : Location) : Prop :=
  (loc.line > r.start.line ∨ (loc.line = r.start.line ∧ loc.col ≥ r.start.col)) ∧
  (loc.line < r.stop.line ∨ (loc.line = r.stop.line ∧ loc.col < r.stop.col))

instance (r : LocationRange) (loc : Location) : Decidable (r.containsLoc loc) := by
  unfold LocationRange.containsLoc; exact inferInstance

/-- `FileLocationRange` (core/location.py:101-135): a contiguous sequence of
characters in a named file. -/
structure FileLocationRange where
  filename : String
  locationRange : LocationRange
deriving DecidableEq, Repr

def FileLocationRange.start (r : FileLocationRange) : Location := r.locationRange.start

def FileLocationRange.stop (r : FileLocationRange) : Location := r.locationRange.stop

/-! ## core/replacement.py -/

/-- `Replacement` (core/replacement.py:69-99): replace the text at `location`
with `text`. -/
structure Replacement where
  location : FileLocationRange
  text : List Char
deriving DecidableEq, Repr

instance : Inhabited Replacement := ⟨⟨⟨"", ⟨⟨1, 0⟩, ⟨1, 0⟩⟩⟩, []⟩⟩

def Replacement.filename (r : Replacement) : String := r.location.filename

/-- The grouping loop of `Replacement.resolve` (core/replacement.py:27-31):
a Python dict from filename to the replacements with that filename, keyed in
first-occurrence order, each group in input order. -/
def insertGroup : List (String × List Replacement) → Replacement →
    List (String × List Replacement)
  | [], r => [(r.filename, [r])]
  | (fn, rs) :: rest, r =>
    if fn = r.filename then (fn, rs ++ [r]) :: rest
    else (fn, rs) :: insertGroup rest r

def groupByFile (rs : List Replacement) : List (String × List Replacement) :=
  rs.foldl insertGroup []

/-- The sort of `Replacement.resolve` (core/replacement.py:37-48).
`reps.sort(key=functools.cmp_to_key(compare))` is a stable sort that consults
only `compare(x, y) < 0`.  `compare` returns a negative value exactly when
`x.location.start < y.location.start` under the attrs tuple order: its helper
`cmp` returns `-1` when its first argument is smaller and `0` otherwise (also
when larger), so the equal-start branch `-cmp(stop_x, stop_y)` yields only
`0` or `1`, never a negative value.  The effective comparison is therefore a
stable ascending sort on `location.start`, realised here as the standard
stable insertion sort. -/
def sortIns (x : Replacement) : List Replacement → List Replacement
  | [] => [x]
  | y :: ys =>
    if Location.lt y.location.start x.location.start then y :: sortIns x ys
    else x :: y :: ys

def sortReps : List Replacement → List Replacement
  | [] => []
  | x :: xs => sortIns x (sortReps xs)

/-- The filtering walk of `Replacement.resolve` (core/replacement.py:50-59)
on the sorted per-file list `reps`.  The second list argument is `reps`
from index `j` on; `i` is the Python index variable (it advances by one on
every acceptance, as in the source).  A candidate `y` is dropped iff
`reps[i].location.stop > y.location.start`. -/
def resolveWalk (reps : List Replacement) : Nat → List Replacement → List Replacement
  | _, [] => []
  | i, y :: rest =>
    if Location.lt y.location.start (reps.getD i default).location.stop then
      resolveWalk reps i rest
    else
      y :: resolveWalk reps (i + 1) rest

/-- Per-file body of `Replacement.resolve` (core/replacement.py:34-61):
sort, keep `reps[0]`, walk, then reverse the accepted list. -/
def resolveFile (reps : List Replacement) : List Replacement :=
  match sortReps reps with
  | [] => []
  | x :: rest => ((x :: resolveWalk (x :: rest) 0 rest).reverse)

/-- `Replacement.resolve` (core/replacement.py:20-67): group by file, resolve
each group, and concatenate the groups in dict order. -/
def Replacement.resolve (rs : List Replacement) : List Replacement :=
  (groupByFile rs).foldl (fun acc g => acc ++ resolveFile g.2) []

theorem containsLoc_iff (r : FileLocationRange) (loc : Location) :
    r.locationRange.containsLoc loc ↔
      (Location.le r.start loc ∧ Location.lt loc r.stop) := by
  unfold LocationRange.containsLoc Location.le Location.lt
    FileLocationRange.start FileLocationRange.stop
  omega

/-- `Replacement.resolve` on a two-element single-file input, computed out:
the pair is sorted ascending by start (stable for equal starts), the second
of the sorted pair is dropped iff its start lies strictly before the stop of
the first, and the accepted list is reversed before being returned. -/
theorem resolve_pair (x y : Replacement)
    (hfile : x.location.filename = y.location.filename) :
    Replacement.resolve [x, y] =
      if Location.lt y.location.start x.location.start then
        (if Location.lt x.location.start y.location.stop then [y] else [x, y])
      else
        (if Location.lt y.location.start x.location.stop then [x] else [y, x]) := by
  by_cases h1 : Location.lt y.location.start x.location.start
  · by_cases h2 : Location.lt x.location.start y.location.stop
    all_goals
      simp [Replacement.resolve, groupByFile, insertGroup, Replacement.filename,
            hfile, resolveFile, sortReps, sortIns, resolveWalk, h1, h2]
  · by_cases h2 : Location.lt y.location.start x.location.stop
    all_goals
      simp [Replacement.resolve, groupByFile, insertGroup, Replacement.filename,
            hfile, resolveFile, sortReps, sortIns, resolveWalk, h1, h2]

/-- C3 (amended).  For two replacements in the same file whose ranges overlap
(share a location, in the half-open sense of `LocationRange.__contains__`),
`Replacement.resolve` returns exactly one of the two; for two non-empty,
disjoint and non-adjacent replacements it returns both — in descending-offset
order (the accepted list is reversed before `resolve` returns, so the
later-starting replacement comes first, not in ascending-offset order as
claimed). -/
theorem resolve_pair_overlap_one_disjoint_both (x y : Replacement)
    (hfile : x.location.filename = y.location.filename) :
    ((∃ loc : Location, x.location.locationRange.containsLoc loc ∧
        y.location.locationRange.containsLoc loc) →
      Replacement.resolve [x, y] = [x] ∨ Replacement.resolve [x, y] = [y]) ∧
    (Location.lt x.location.start x.location.stop →
     Location.lt y.location.start y.location.stop →
     (Location.lt x.location.stop y.location.start ∨
      Location.lt y.location.stop x.location.start) →
      ((Location.lt x.location.start y.location.start →
          Replacement.resolve [x, y] = [y, x]) ∧
       (Location.lt y.location.start x.location.start →
          Replacement.resolve [x, y] = [x, y]))) := by
  rw [resolve_pair x y hfile]
  constructor
  · rintro ⟨loc, hx, hy⟩
    rw [containsLoc_iff] at hx hy
    obtain ⟨hx1, hx2⟩ := hx
    obtain ⟨hy1, hy2⟩ := hy
    split_ifs with h1 h2 h3
    · exact Or.inr rfl
    · exfalso
      simp only [Location.lt, Location.le] at *
      omega
    · exact Or.inl rfl
    · exfalso
      simp only [Location.lt, Location.le] at *
      omega
  · intro wfx wfy hdisj
    constructor <;> intro hlt <;> split_ifs <;>
      first
        | rfl
        | (exfalso; simp only [Location.lt] at *; omega)

/-- A replacement of the span 1:0::1:1 of file f. -/
def repEarly : Replacement := ⟨⟨"f", ⟨⟨1, 0⟩, ⟨1, 1⟩⟩⟩, ['a']⟩

/-- A replacement of the span 1:5::1:6 of file f: disjoint from and not
adjacent to `repEarly`. -/
def repLate : Replacement := ⟨⟨"f", ⟨⟨1, 5⟩, ⟨1, 6⟩⟩⟩, ['b']⟩

/-- Counterexample for C3 as stated: for the disjoint, non-adjacent pair
`repEarly`, `repLate` (starts 1:0 and 1:5), `resolve` returns both in
descending-offset order `[repLate, repEarly]`, not in ascending-offset
order. -/
theorem resolve_pair_not_ascending_counterexample :
    Replacement.resolve [repEarly, repLate] = [repLate, repEarly] ∧
    Replacement.resolve [repEarly, repLate] ≠ [repEarly, repLate] := by
  decide

/-- A replacement of 1:0::1:5 of file g. -/
def repWideG : Replacement := ⟨⟨"g", ⟨⟨1, 0⟩, ⟨1, 5⟩⟩⟩, ['c']⟩

/-- A replacement of 1:3::1:8 of file g: overlaps `repWideG` (both contain
1:3). -/
def repShiftG : Replacement := ⟨⟨"g", ⟨⟨1, 3⟩, ⟨1, 8⟩⟩⟩, ['d']⟩

/-- Witness for C3: the theorem applied to a concrete overlapping pair and a
concrete disjoint pair. -/
theorem resolve_pair_overlap_one_disjoint_both_witness :
    (Replacement.resolve [repWideG, repShiftG] = [repWideG] ∨
     Replacement.resolve [repWideG, repShiftG] = [repShiftG]) ∧
    Replacement.resolve [repEarly, repLate] = [repLate, repEarly] := by
  constructor
  · exact (resolve_pair_overlap_one_disjoint_both repWideG repShiftG rfl).1
      ⟨⟨1, 3⟩, by decide, by decide⟩
  · exact ((resolve_pair_overlap_one_disjoint_both repEarly repLate rfl).2
      (by decide) (by decide) (Or.inl (by decide))).1 (by decide)

/-! ## server/sourcefile.py -/

/-- The newline scan of `SourceFileManager._line_offsets`
(server/sourcefile.py:96-104): the loop appends `idx + 1` for each index
`idx` holding a newline, in order; here `pos` counts the characters already
scanned. -/
def lineOffsetsAux : List Char → Nat → List Nat
  | [], _ => []
  | c :: rest, pos =>
    if c = '\n' then (pos + 1) :: lineOffsetsAux rest (pos + 1)
    else lineOffsetsAux rest (pos + 1)

/-- `SourceFileManager._line_offsets` (server/sourcefile.py:76-110): the
offset of the first character of each (1-indexed) line. -/
def lineOffsets (s : List Char) : List Nat := 0 :: lineOffsetsAux s 0

/-- `SourceFileManager.num_lines` (server/sourcefile.py:31-40). -/
def numLines (s : List Char) : Nat := (lineOffsets s).length

/-- `SourceFileManager.line_col_to_offset` (server/sourcefile.py:112-136):
`line_offsets[line_num - 1] + col_num`.  The Python code asserts
`line_num > 0` and raises `IndexError` for a line number beyond the offset
table; the theorems below only use it under those bounds, so the
out-of-range index is modelled with a default of 0. -/
def lineColToOffset (s : List Char) (lineNum colNum : Nat) : Nat :=
  (lineOffsets s).getD (lineNum - 1) 0 + colNum

/-- Python `rstrip` over the newline character: remove trailing newlines. -/
def pyRstripNl (l : List Char) : List Char :=
  (l.reverse.dropWhile (· = '\n')).reverse

/-- `SourceFileManager.read_line` (server/sourcefile.py:267-291) with the
default `keep_newline=False`: slice between consecutive line offsets (to the
end of file for the final line), then strip the trailing newline. -/
def readLine (s : List Char) (num : Nat) : List Char :=
  let offs := lineOffsets s
  let startAt := offs.getD (num - 1) 0
  if offs.length = num then pyRstripNl (s.drop startAt)
  else pyRstripNl (pySlice s startAt (offs.getD num 0))

/-- `SourceFileManager.read_chars` (server/sourcefile.py:293-318).  Note the
slice in the source runs from `start_at` to `stop_at + 1`, so the character
at the stop location is included. -/
def readChars (s : List Char) (location : LocationRange) : List Char :=
  let startAt := lineColToOffset s location.start.line location.start.col
  let stopAt := lineColToOffset s location.stop.line location.stop.col
  pySlice s startAt (stopAt + 1)

/-- One iteration of the rewrite loop of `SourceFileManager.apply`
(server/sourcefile.py:333-344): splice `txt` over the byte span
`[startAt, stopAt)` of the current content. -/
def applyOne (content : List Char) (startAt stopAt : Nat) (txt : List Char) :
    List Char :=
  content.take startAt ++ txt ++ content.drop stopAt

/-- `SourceFileManager.apply` (server/sourcefile.py:320-347): resolve the
replacements, then splice each in turn.  The offsets are computed by
`line_col_to_offset` against the cached original file text `s` even as
`content` is rewritten (the offset table was cached when the file was first
read). -/
def applyReplacements (s : List Char) (rs : List Replacement) : List Char :=
  (Replacement.resolve rs).foldl
    (fun content r =>
      applyOne content
        (lineColToOffset s r.location.start.line r.location.start.col)
        (lineColToOffset s r.location.stop.line r.location.stop.col)
        r.text)
    s

/-- C6 (the code as it stands, at the claim's failing input).  For the
single-line file of text int x = 0; and the range 1:4::1:5, `read_chars`
returns the two characters at offsets 4 and 5 — the character at the stop
location is included, not excluded as the half-open reading requires. -/
theorem read_chars_includes_stop_character :
    readChars ("int x = 0;".toList) ⟨⟨1, 4⟩, ⟨1, 5⟩⟩ = "x ".toList ∧
    "x ".toList ≠ "x".toList := by
  decide

/-- Spec-side description of `apply` (the refinement target, phrased from the
spec's words, to be compared with `applyReplacements`): the text obtained by
replacing each byte span `[a, b)` of the original text with its replacement
text, spans taken against the original text, all other characters kept;
`pos` is the next original offset not yet emitted. -/
def replaceSpans (s : List Char) : Nat → List (Nat × Nat × List Char) → List Char
  | pos, [] => s.drop pos
  | pos, (a, b, t) :: rest =>
    (s.drop pos).take (a - pos) ++ t ++ replaceSpans s b rest

/-- The span `(start offset, stop offset, text)` of a replacement, resolved
against the original text. -/
def spanOf (s : List Char) (r : Replacement) : Nat × Nat × List Char :=
  (lineColToOffset s r.location.start.line r.location.start.col,
   lineColToOffset s r.location.stop.line r.location.stop.col,
   r.text)

/-- A conflict-free, in-bounds span list: each span `[a, b)` satisfies
`pos ≤ a ≤ b ≤ n` and the following spans start at or after `b`. -/
def spansOK (n : Nat) : Nat → List (Nat × Nat × List Char) → Bool
  | _, [] => true
  | pos, (a, b, _) :: rest => pos ≤ a && a ≤ b && b ≤ n && spansOK n b rest

theorem spansOK_mono {n : Nat} {l : List (Nat × Nat × List Char)}
    {pos pos' : Nat} (h : spansOK n pos l = true) (hle : pos' ≤ pos) :
    spansOK n pos' l = true := by
  cases l with
  | nil => rfl
  | cons hd tl =>
    obtain ⟨a, b, t⟩ := hd
    simp only [spansOK, Bool.and_eq_true, decide_eq_true_eq] at h ⊢
    exact ⟨⟨⟨Nat.le_trans hle h.1.1.1, h.1.1.2⟩, h.1.2⟩, h.2⟩

theorem replaceSpans_split (s : List Char) (p : Nat)
    (l : List (Nat × Nat × List Char)) (h : spansOK s.length p l = true) :
    replaceSpans s 0 l = s.take p ++ replaceSpans s p l := by
  cases l with
  | nil =>
    simp [replaceSpans]
  | cons hd tl =>
    obtain ⟨a, b, t⟩ := hd
    simp only [spansOK, Bool.and_eq_true, decide_eq_true_eq] at h
    have hpa : p ≤ a := h.1.1.1
    have ha : p + (a - p) = a := by omega
    calc replaceSpans s 0 ((a, b, t) :: tl)
        = s.take a ++ t ++ replaceSpans s b tl := by
          simp [replaceSpans]
      _ = s.take (p + (a - p)) ++ t ++ replaceSpans s b tl := by rw [ha]
      _ = (s.take p ++ (s.drop p).take (a - p)) ++ t ++ replaceSpans s b tl := by
          rw [List.take_add]
      _ = s.take p ++ replaceSpans s p ((a, b, t) :: tl) := by
          simp [replaceSpans, List.append_assoc]

/-- Applying the resolved spans back-to-front (highest offset first, the
order `resolve` returns them in) with offsets of the original text equals the
simultaneous replacement of all spans. -/
theorem foldr_applyOne_eq_replaceSpans (s : List Char)
    (l : List (Nat × Nat × List Char)) (h : spansOK s.length 0 l = true) :
    l.foldr (fun x acc => applyOne acc x.1 x.2.1 x.2.2) s = replaceSpans s 0 l := by
  induction l with
  | nil => simp [replaceSpans]
  | cons hd tl ih =>
    obtain ⟨a, b, t⟩ := hd
    simp only [spansOK, Bool.and_eq_true, decide_eq_true_eq] at h
    obtain ⟨⟨⟨-, hab⟩, hbn⟩, htl⟩ := h
    have hrec := ih (spansOK_mono htl (Nat.zero_le b))
    simp only [List.foldr_cons]
    rw [hrec, replaceSpans_split s b tl htl]
    have hlen : (s.take b).length = b := by
      rw [List.length_take]; omega
    unfold applyOne
    rw [List.take_append_of_le_length (by rw [hlen]; exact hab),
        List.take_take, Nat.min_eq_left hab, List.drop_left' hlen]
    simp [replaceSpans]

/-- The worked source text of the spec's end-to-end example. -/
def exampleSource : List Char :=
  "int sm = 0;\nfor (int i = 0; i < 10; ++i) \x7b\n  sm += i;\n\x7d".toList

/-- The replacement of the example: 1:0::1:3 becomes the text unsigned int. -/
def exampleReplacement : Replacement :=
  ⟨⟨"foo.c", ⟨⟨1, 0⟩, ⟨1, 3⟩⟩⟩, "unsigned int".toList⟩

/-- The expected output of the example: the first three characters replaced,
the rest unchanged. -/
def exampleExpected : List Char :=
  "unsigned int sm = 0;\nfor (int i = 0; i < 10; ++i) \x7b\n  sm += i;\n\x7d".toList

/-- C4.  `apply` returns the text obtained by replacing each accepted
replacement's byte span of the original text (spans computed against the
original text) with that replacement's text, leaving all other characters
unchanged; the spec's end-to-end example holds; and a replacement whose text
equals the original characters of its span returns the original content
unchanged. -/
theorem apply_is_simultaneous_span_replacement :
    (∀ (s : List Char) (rs : List Replacement),
        spansOK s.length 0 (((Replacement.resolve rs).map (spanOf s)).reverse) = true →
        applyReplacements s rs =
          replaceSpans s 0 (((Replacement.resolve rs).map (spanOf s)).reverse)) ∧
    applyReplacements exampleSource [exampleReplacement] = exampleExpected ∧
    (∀ (s : List Char) (r : Replacement),
        lineColToOffset s r.location.start.line r.location.start.col ≤
          lineColToOffset s r.location.stop.line r.location.stop.col →
        lineColToOffset s r.location.stop.line r.location.stop.col ≤ s.length →
        r.text = pySlice s
          (lineColToOffset s r.location.start.line r.location.start.col)
          (lineColToOffset s r.location.stop.line r.location.stop.col) →
        applyReplacements s [r] = s) := by
  refine ⟨?_, by decide, ?_⟩
  · intro s rs h
    calc applyReplacements s rs
        = ((Replacement.resolve rs).map (spanOf s)).foldl
            (fun c x => applyOne c x.1 x.2.1 x.2.2) s := by
          unfold applyReplacements
          rw [List.foldl_map]
          rfl
      _ = (((Replacement.resolve rs).map (spanOf s)).reverse).foldr
            (fun x acc => applyOne acc x.1 x.2.1 x.2.2) s := by
          conv_lhs =>
            rw [← List.reverse_reverse ((Replacement.resolve rs).map (spanOf s))]
          rw [List.foldl_reverse]
      _ = replaceSpans s 0 (((Replacement.resolve rs).map (spanOf s)).reverse) :=
          foldr_applyOne_eq_replaceSpans s _ h
  · intro s r h1 h2 h3
    have hres : Replacement.resolve [r] = [r] := rfl
    unfold applyReplacements
    rw [hres]
    simp only [List.foldl_cons, List.foldl_nil]
    unfold applyOne
    rw [h3]
    unfold pySlice
    have hsplit : s.take (lineColToOffset s r.location.start.line r.location.start.col) ++
        ((s.take (lineColToOffset s r.location.stop.line r.location.stop.col)).drop
          (lineColToOffset s r.location.start.line r.location.start.col)) =
        s.take (lineColToOffset s r.location.stop.line r.location.stop.col) := by
      conv_rhs =>
        rw [← List.take_append_drop
          (lineColToOffset s r.location.start.line r.location.start.col)
          (s.take (lineColToOffset s r.location.stop.line r.location.stop.col))]
      rw [List.take_take, Nat.min_eq_left h1]
    rw [List.append_assoc, ← List.append_assoc _ _ (s.drop _), hsplit,
        List.take_append_drop]

/-- Witness for C4: the general span-replacement statement applied to a
concrete text and replacement list, the hypothesis discharged by
computation. -/
theorem apply_is_simultaneous_span_replacement_witness :
    applyReplacements ("ab".toList) [repEarly] =
      replaceSpans ("ab".toList) 0
        (((Replacement.resolve [repEarly]).map (spanOf ("ab".toList))).reverse) :=
  apply_is_simultaneous_span_replacement.1 _ _ (by decide)

/-- Every offset the newline scan reports lies strictly beyond the scan
position and within the scanned text. -/
theorem lineOffsetsAux_bounds :
    ∀ (l : List Char) (pos o : Nat), o ∈ lineOffsetsAux l pos →
      pos < o ∧ o ≤ pos + l.length := by
  intro l
  induction l with
  | nil => intro pos o h; simp [lineOffsetsAux] at h
  | cons c rest ih =>
    intro pos o h
    by_cases hc : c = '\n'
    · simp only [lineOffsetsAux, if_pos hc] at h
      rcases List.mem_cons.1 h with h1 | h2
      · subst h1; simp only [List.length_cons]; omega
      · have := ih (pos + 1) o h2
        simp only [List.length_cons]
        omega
    · simp only [lineOffsetsAux, if_neg hc] at h
      have := ih (pos + 1) o h
      simp only [List.length_cons]
      omega

theorem lineOffsetsAux_pairwise :
    ∀ (l : List Char) (pos : Nat), List.Pairwise (· < ·) (lineOffsetsAux l pos) := by
  intro l
  induction l with
  | nil => intro pos; simp [lineOffsetsAux]
  | cons c rest ih =>
    intro pos
    by_cases hc : c = '\n'
    · simp only [lineOffsetsAux, if_pos hc]
      refine List.Pairwise.cons ?_ (ih (pos + 1))
      intro o ho
      exact (lineOffsetsAux_bounds _ _ _ ho).1
    · simp only [lineOffsetsAux, if_neg hc]
      exact ih (pos + 1)

theorem lineOffsets_pairwise (s : List Char) :
    List.Pairwise (· < ·) (lineOffsets s) := by
  unfold lineOffsets
  refine List.Pairwise.cons ?_ (lineOffsetsAux_pairwise s 0)
  intro o ho
  have := (lineOffsetsAux_bounds _ _ _ ho).1
  omega

/-- The text scanned up to an offset the newline scan reports ends with a
newline character: each reported offset is one past a newline. -/
theorem lineOffsetsAux_take_newline :
    ∀ (l : List Char) (pos o : Nat), o ∈ lineOffsetsAux l pos →
      ∃ u : List Char, l.take (o - pos) = u ++ ['\n'] := by
  intro l
  induction l with
  | nil => intro pos o h; simp [lineOffsetsAux] at h
  | cons c rest ih =>
    intro pos o h
    by_cases hc : c = '\n'
    · simp only [lineOffsetsAux, if_pos hc] at h
      rcases List.mem_cons.1 h with h1 | h2
      · refine ⟨[], ?_⟩
        subst h1
        simp [hc]
      · obtain ⟨u, hu⟩ := ih (pos + 1) o h2
        have hgt : pos + 1 < o := (lineOffsetsAux_bounds _ _ _ h2).1
        refine ⟨c :: u, ?_⟩
        rw [show o - pos = (o - (pos + 1)) + 1 by omega]
        simp [hu]
    · simp only [lineOffsetsAux, if_neg hc] at h
      obtain ⟨u, hu⟩ := ih (pos + 1) o h
      have hgt : pos + 1 < o := (lineOffsetsAux_bounds _ _ _ h).1
      refine ⟨c :: u, ?_⟩
      rw [show o - pos = (o - (pos + 1)) + 1 by omega]
      simp [hu]

theorem pyRstripNl_append_newline_length (w : List Char) :
    (pyRstripNl (w ++ ['\n'])).length ≤ w.length := by
  unfold pyRstripNl
  rw [List.reverse_append]
  simp only [List.reverse_cons, List.reverse_nil, List.nil_append,
    List.singleton_append, List.dropWhile_cons]
  simp only [decide_True, if_true, List.length_reverse]
  calc (w.reverse.dropWhile (· = '\n')).length ≤ w.reverse.length :=
        (List.dropWhile_sublist _).length_le
    _ = w.length := List.length_reverse _

/-- Re-derivation of a line and column from a character offset over the
line-offset table: the last line whose first-character offset is at most the
offset, and the distance to that line's first-character offset.  This is the
inverse reading against which the spec states the round-trip. -/
def offsetToLineCol : List Nat → Nat → Nat × Nat
  | [], off => (0, off)
  | [o], off => (1, off - o)
  | o₁ :: o₂ :: rest, off =>
    if off < o₂ then (1, off - o₁)
    else
      let p := offsetToLineCol (o₂ :: rest) off
      (p.1 + 1, p.2)

theorem pairwise_head_le_getD {x : Nat} {l : List Nat}
    (h : List.Pairwise (· < ·) (x :: l)) :
    ∀ n, n < (x :: l).length → x ≤ (x :: l).getD n 0 := by
  intro n hn
  cases n with
  | zero => simp
  | succ k =>
    simp only [List.getD_cons_succ]
    have hk : k < l.length := by simpa using hn
    rw [List.getD_eq_getElem l 0 hk]
    exact Nat.le_of_lt (List.rel_of_pairwise_cons h (l.getElem_mem hk))

/-- The round-trip over any strictly increasing offset table: for a line
number within the table and an offset `offs[L-1] + C` that stays below the
next line's offset (when there is one), `offsetToLineCol` recovers exactly
`(L, C)`. -/
theorem offsetToLineCol_getD :
    ∀ (offs : List Nat) (L C : Nat), 1 ≤ L → L ≤ offs.length →
      List.Pairwise (· < ·) offs →
      (L < offs.length → offs.getD (L - 1) 0 + C < offs.getD L 0) →
      offsetToLineCol offs (offs.getD (L - 1) 0 + C) = (L, C) := by
  intro offs
  induction offs with
  | nil =>
    intro L C h1 h2 _ _
    simp only [List.length_nil] at h2
    omega
  | cons o₁ tl ih =>
    intro L C h1 h2 hsorted hbound
    cases tl with
    | nil =>
      have hL : L = 1 := by
        simp only [List.length_cons, List.length_nil] at h2
        omega
      subst hL
      simp [offsetToLineCol]
    | cons o₂ rest =>
      match L, h1 with
      | 1, _ =>
        have hb : o₁ + C < o₂ := by
          have := hbound (by simp)
          simpa using this
        simp only [Nat.sub_self, List.getD_cons_zero, offsetToLineCol]
        rw [if_pos (by simpa using hb)]
        simp
      | (n + 2), _ =>
        have hlen : n + 1 ≤ (o₂ :: rest).length := by
          simpa using h2
        have htail : List.Pairwise (· < ·) (o₂ :: rest) := hsorted.of_cons
        have hb : ∀ _ : n + 1 < (o₂ :: rest).length,
            (o₂ :: rest).getD n 0 + C < (o₂ :: rest).getD (n + 1) 0 := by
          intro hlt
          have := hbound (by simpa using hlt)
          simpa only [Nat.add_sub_cancel, List.getD_cons_succ] using this
        have hrec := ih (n + 1) C (by omega) hlen htail hb
        have hoff : (o₁ :: o₂ :: rest).getD (n + 2 - 1) 0 = (o₂ :: rest).getD n 0 := rfl
        rw [hoff]
        have hge : ¬ ((o₂ :: rest).getD n 0 + C < o₂) := by
          have : o₂ ≤ (o₂ :: rest).getD n 0 :=
            pairwise_head_le_getD htail n
              (by simp only [List.length_cons] at hlen ⊢; omega)
          omega
        simp only [offsetToLineCol, if_neg hge]
        rw [Nat.add_sub_cancel] at hrec
        rw [hrec]

/-- C9.  For a cached file text, a line number `1 ≤ L ≤ numLines` and a
column `C` within the length of line `L`, `line_col_to_offset` returns
`lineOffsets[L-1] + C`, and re-deriving the line and column from that offset
(the line whose offset span contains it, and the distance from that line's
first-character offset) recovers exactly `(L, C)`. -/
theorem line_col_to_offset_roundtrip (s : List Char) (L C : Nat)
    (hL1 : 1 ≤ L) (hL2 : L ≤ numLines s) (hC : C ≤ (readLine s L).length) :
    lineColToOffset s L C = (lineOffsets s).getD (L - 1) 0 + C ∧
    offsetToLineCol (lineOffsets s) (lineColToOffset s L C) = (L, C) := by
  refine ⟨rfl, ?_⟩
  unfold lineColToOffset
  apply offsetToLineCol_getD (lineOffsets s) L C hL1 hL2 (lineOffsets_pairwise s)
  intro hlt
  have hne : (lineOffsets s).length ≠ L := by omega
  have hrl : readLine s L =
      pyRstripNl (pySlice s ((lineOffsets s).getD (L - 1) 0)
        ((lineOffsets s).getD L 0)) := by
    unfold readLine
    rw [if_neg hne]
  have hmem : (lineOffsets s).getD L 0 ∈ lineOffsetsAux s 0 := by
    obtain ⟨L', rfl⟩ : ∃ L', L = L' + 1 := ⟨L - 1, by omega⟩
    unfold lineOffsets at hlt ⊢
    simp only [List.getD_cons_succ]
    have hL' : L' < (lineOffsetsAux s 0).length := by
      simp only [List.length_cons] at hlt
      omega
    rw [List.getD_eq_getElem _ _ hL']
    exact List.getElem_mem hL'
  have hb_bounds := lineOffsetsAux_bounds s 0 _ hmem
  obtain ⟨u, hu⟩ := lineOffsetsAux_take_newline s 0 _ hmem
  rw [Nat.sub_zero] at hu
  have hab : (lineOffsets s).getD (L - 1) 0 < (lineOffsets s).getD L 0 := by
    have hp := List.pairwise_iff_getElem.1 (lineOffsets_pairwise s)
    have h1 : L - 1 < (lineOffsets s).length := by omega
    rw [List.getD_eq_getElem _ _ h1, List.getD_eq_getElem _ _ hlt]
    exact hp (L - 1) L h1 hlt (by omega)
  have hulen : u.length + 1 = (lineOffsets s).getD L 0 := by
    have htk : (s.take ((lineOffsets s).getD L 0)).length =
        (lineOffsets s).getD L 0 := by
      rw [List.length_take]
      omega
    rw [hu] at htk
    simpa using htk
  have hslice : pySlice s ((lineOffsets s).getD (L - 1) 0)
      ((lineOffsets s).getD L 0) =
      u.drop ((lineOffsets s).getD (L - 1) 0) ++ ['\n'] := by
    unfold pySlice
    rw [hu]
    exact List.drop_append_of_le_length (by omega)
  have hlen2 : (readLine s L).length ≤
      u.length - (lineOffsets s).getD (L - 1) 0 := by
    rw [hrl, hslice]
    calc (pyRstripNl (u.drop ((lineOffsets s).getD (L - 1) 0) ++ ['\n'])).length
        ≤ (u.drop ((lineOffsets s).getD (L - 1) 0)).length :=
          pyRstripNl_append_newline_length _
      _ = u.length - (lineOffsets s).getD (L - 1) 0 := List.length_drop _ _
  omega

/-- Witness for C9: the round-trip at a concrete two-line file, line 2,
column 1. -/
theorem line_col_to_offset_roundtrip_witness :
    lineColToOffset ("ab\ncd".toList) 2 1 =
      (lineOffsets ("ab\ncd".toList)).getD 1 0 + 1 ∧
    offsetToLineCol (lineOffsets ("ab\ncd".toList))
      (lineColToOffset ("ab\ncd".toList) 2 1) = (2, 1) :=
  line_col_to_offset_roundtrip ("ab\ncd".toList) 2 1 (by decide) (by decide)
    (by decide)

/-! ## core/constraint.py -/

/-- Python `str.strip()`: remove leading and trailing whitespace. -/
def pyStrip (l : List Char) : List Char :=
  ((l.dropWhile pyIsSpace).reverse.dropWhile pyIsSpace).reverse

/-- A Rooibos match environment, modelled as the mapping from hole names to
the captured text fragments (`match.environment[hole].fragment`). -/
def lookupEnv : List (String × List Char) → String → Option (List Char)
  | [], _ => none
  | (k, v) :: rest, h => if k = h then some v else lookupEnv rest h

/-- `IsSingleTerm.is_satisfied_by` (core/constraint.py:48-59): `False` when
the hole is not in the match environment; otherwise the captured fragment is
stripped and no character of the stripped content may be whitespace. -/
def IsSingleTerm.isSatisfiedBy (hole : String)
    (env : List (String × List Char)) : Bool :=
  match lookupEnv env hole with
  | none => false
  | some frag => !(pyStrip frag).any pyIsSpace

theorem dropWhile_append_all (p : Char → Bool) (a l : List Char)
    (h : ∀ x ∈ a, p x = true) : (a ++ l).dropWhile p = l.dropWhile p := by
  induction a with
  | nil => rfl
  | cons x xs ih =>
    simp only [List.cons_append, List.dropWhile_cons, h x (by simp), if_true]
    exact ih fun y hy => h y (by simp [hy])

theorem dropWhile_all (p : Char → Bool) (l : List Char)
    (h : ∀ x ∈ l, p x = true) : l.dropWhile p = [] := by
  induction l with
  | nil => rfl
  | cons x xs ih =>
    simp only [List.dropWhile_cons, h x (by simp), if_true]
    exact ih fun y hy => h y (by simp [hy])

theorem dropWhile_none (p : Char → Bool) (l : List Char)
    (h : ∀ x ∈ l, p x = false) : l.dropWhile p = l := by
  cases l with
  | nil => rfl
  | cons x xs =>
    simp only [List.dropWhile_cons, h x (by simp), Bool.false_eq_true, if_false]

theorem any_false_iff (p : Char → Bool) (l : List Char) :
    l.any p = false ↔ ∀ x ∈ l, p x = false := by
  rw [← Bool.not_eq_true, List.any_eq_true]
  push_neg
  simp

/-- The content of `pyStrip`: the stripped fragment is whitespace-free iff
the fragment splits as leading whitespace, a whitespace-free core, and
trailing whitespace. -/
theorem pyStrip_no_space_iff (l : List Char) :
    (pyStrip l).any pyIsSpace = false ↔
    ∃ a b c : List Char, l = a ++ b ++ c ∧
      (∀ ch ∈ a, pyIsSpace ch = true) ∧
      (∀ ch ∈ b, pyIsSpace ch = false) ∧
      (∀ ch ∈ c, pyIsSpace ch = true) := by
  constructor
  · intro h
    refine ⟨l.takeWhile pyIsSpace, pyStrip l,
      (((l.dropWhile pyIsSpace).reverse.takeWhile pyIsSpace)).reverse, ?_, ?_, ?_, ?_⟩
    · conv_lhs => rw [← List.takeWhile_append_dropWhile (p := pyIsSpace) (l := l)]
      rw [List.append_assoc]
      congr 1
      conv_lhs => rw [← List.reverse_reverse (l.dropWhile pyIsSpace)]
      conv_lhs =>
        rw [← List.takeWhile_append_dropWhile (p := pyIsSpace)
          (l := (l.dropWhile pyIsSpace).reverse)]
      rw [List.reverse_append]
      rfl
    · intro ch hch
      exact List.mem_takeWhile_imp hch
    · exact (any_false_iff _ _).1 h
    · intro ch hch
      rw [List.mem_reverse] at hch
      exact List.mem_takeWhile_imp hch
  · rintro ⟨a, b, c, rfl, ha, hb, hc⟩
    unfold pyStrip
    rw [List.append_assoc, dropWhile_append_all _ _ _ ha]
    cases b with
    | nil =>
      rw [List.nil_append, dropWhile_all _ _ hc]
      rfl
    | cons x xs =>
      rw [List.cons_append, List.dropWhile_cons, hb x (by simp)]
      simp only [Bool.false_eq_true, if_false]
      rw [show (x :: (xs ++ c)) = (x :: xs) ++ c from rfl, List.reverse_append,
        dropWhile_append_all _ _ _ (fun y hy => hc y (List.mem_reverse.1 hy)),
        dropWhile_none _ _ (fun y hy => hb y (List.mem_reverse.1 hy)),
        List.reverse_reverse]
      exact (any_false_iff _ _).2 hb

/-- Counterexample for C7 as stated: the fragment captured for hole x is
space, a, space — it contains whitespace, yet `IsSingleTerm` is satisfied
(the source strips the fragment before testing for whitespace). -/
theorem isSingleTerm_accepts_padded_fragment :
    IsSingleTerm.isSatisfiedBy "x" [("x", " a ".toList)] = true ∧
    (" a ".toList).any pyIsSpace = true := by
  decide

/-- C7 (amended).  `IsSingleTerm` is satisfied iff the hole was captured in
the match environment and the captured fragment is leading whitespace, then a
whitespace-free core, then trailing whitespace — i.e. the fragment contains
no interior whitespace (the source strips the fragment before the whitespace
test, so fragments padded by whitespace are accepted; a fragment that was not
captured at all is rejected). -/
theorem isSingleTerm_iff_captured_single_token (hole : String)
    (env : List (String × List Char)) :
    IsSingleTerm.isSatisfiedBy hole env = true ↔
    ∃ frag, lookupEnv env hole = some frag ∧
      ∃ a b c : List Char, frag = a ++ b ++ c ∧
        (∀ ch ∈ a, pyIsSpace ch = true) ∧
        (∀ ch ∈ b, pyIsSpace ch = false) ∧
        (∀ ch ∈ c, pyIsSpace ch = true) := by
  unfold IsSingleTerm.isSatisfiedBy
  cases hl : lookupEnv env hole with
  | none => simp [hl]
  | some frag =>
    simp only [hl, Option.some.injEq, Bool.not_eq_true']
    rw [pyStrip_no_space_iff]
    constructor
    · intro h
      exact ⟨frag, rfl, h⟩
    · rintro ⟨frag', hfrag, h⟩
      rw [hfrag]
      exact h

/-- Witness for C7: the characterisation applied to a concrete environment,
in both directions. -/
theorem isSingleTerm_iff_captured_single_token_witness :
    IsSingleTerm.isSatisfiedBy "y" [("y", " ab ".toList)] = true :=
  (isSingleTerm_iff_captured_single_token "y" [("y", " ab ".toList)]).2
    ⟨" ab ".toList, rfl, [' '], ['a', 'b'], [' '], rfl,
      by decide, by decide, by decide⟩

/-! ## core/language.py and config/languages.py -/

/-- `Language` (core/language.py): a name and its known file endings (a
frozenset, modelled by the list of its elements). -/
structure Language where
  name : String
  fileEndings : List String
deriving DecidableEq, Repr

/-- The `Languages` catalogue (config/languages.py:15-143): a Python dict
from language name to definition, insertion-ordered. -/
structure Languages where
  entries : List (String × Language)
deriving DecidableEq, Repr

def lookupLang : List (String × Language) → String → Option Language
  | [], _ => none
  | (k, v) :: rest, n => if k = n then some v else lookupLang rest n

/-- Python set union: returns a new set, does not mutate its receiver. -/
def setUnion (a b : List String) : List String :=
  a ++ b.filter (fun x => !(a.contains x))

/-- Python set difference. -/
def setDiff (a b : List String) : List String :=
  a.filter (fun x => !(b.contains x))

/-- Python set intersection. -/
def setInter (a b : List String) : List String :=
  a.filter (fun x => b.contains x)

/-- `Languages.supported_file_endings` (config/languages.py:108-117).  The
Python loop body is the bare expression computing the union of the
accumulator set with the language's endings; `set.union` returns a NEW set
and the statement discards it, so every iteration leaves the accumulator
unchanged and the property always returns the empty set.  The fold below
mirrors the loop: the union is computed, then the unchanged accumulator is
kept. -/
def Languages.supportedFileEndings (c : Languages) : List String :=
  c.entries.foldl
    (fun endings e =>
      let _unionResult := setUnion endings e.2.fileEndings
      endings)
    []

inductive ConfigError
  | illegalConfig
deriving DecidableEq, Repr

deriving instance DecidableEq for Except

/-- Dict assignment: replace in place when the key exists (Python dicts keep
the original position of an overwritten key), else append. -/
def updateEntry : List (String × Language) → Language → List (String × Language)
  | [], lang => [(lang.name, lang)]
  | (k, v) :: rest, lang =>
    if k = lang.name then (k, lang) :: rest
    else (k, v) :: updateEntry rest lang

/-- `Languages.add` (config/languages.py:46-71): take the catalogue's
supported file endings; when the name is already registered, warn and remove
the old definition's endings from consideration; raise `IllegalConfig` when
the new language's endings intersect what remains; otherwise return the
extended catalogue. -/
def Languages.add (c : Languages) (lang : Language) : Except ConfigError Languages :=
  let endings :=
    match lookupLang c.entries lang.name with
    | some old => setDiff c.supportedFileEndings old.fileEndings
    | none => c.supportedFileEndings
  if setInter lang.fileEndings endings ≠ [] then
    .error .illegalConfig
  else
    .ok ⟨updateEntry c.entries lang⟩

/-- The discarded-union bug: the supported-file-endings accumulator is never
extended, so the property is the empty set on every catalogue. -/
theorem supportedFileEndings_always_empty (c : Languages) :
    c.supportedFileEndings = [] := by
  unfold Languages.supportedFileEndings
  generalize c.entries = l
  induction l with
  | nil => rfl
  | cons e rest ih => exact ih

/-- The c language of the failing input: endings contain .c. -/
def langC : Language := ⟨"c", [".c"]⟩

/-- A differently named language that reuses the ending .c. -/
def langCpp : Language := ⟨"cpp", [".c"]⟩

/-- C2 (the code as it stands, at the claim's failing input).  Adding a
language whose file ending .c collides with the already registered language
of a different name does NOT raise `IllegalConfig`: the add succeeds and the
reachable catalogue holds two distinctly named languages with a common file
ending, because `supported_file_endings` always evaluates to the empty set
(its loop discards the result of `set.union`). -/
theorem languages_add_accepts_colliding_endings :
    Languages.add ⟨[("c", langC)]⟩ langCpp =
      .ok ⟨[("c", langC), ("cpp", langCpp)]⟩ ∧
    (Languages.mk [("c", langC), ("cpp", langCpp)]).supportedFileEndings = [] ∧
    langC.name ≠ langCpp.name ∧
    setInter langC.fileEndings langCpp.fileEndings ≠ [] := by
  decide

/-! ## core/constraint.py (variants), core/transformation.py,
core/operator.py, config/operators.py -/

/-- Python `str.rstrip()`: remove trailing whitespace. -/
def pyRstripWs (l : List Char) : List Char :=
  (l.reverse.dropWhile pyIsSpace).reverse

/-- The closed constraint variant set (core/constraint.py). -/
inductive Constraint
  | isSingleTerm (hole : String)
  | precededBy (options : List String)
deriving DecidableEq, Repr

/-- `Constraint.is_satisfied_by` dispatched over the two variants
(core/constraint.py:48-59 and 79-86): `IsSingleTerm` looks only at the match
environment; `PrecededBy` trims the text before the match and asks whether it
ends with one of the options. -/
def Constraint.isSatisfiedBy : Constraint → List (String × List Char) →
    List Char → Nat → Nat → Bool
  | .isSingleTerm hole, env, _, _, _ => IsSingleTerm.isSatisfiedBy hole env
  | .precededBy options, _, contentFile, offsetStart, _ =>
    options.any (fun opt =>
      opt.toList.isSuffixOf (pyRstripWs (contentFile.take offsetStart)))

/-- `Transformation` (core/transformation.py): a Rooibos match template, a
rewrite template, and the constraints.  The `match` attribute is named
`matchTemplate` here because `match` is reserved in Lean. -/
structure Transformation where
  matchTemplate : String
  rewrite : String
  constraints : List Constraint
deriving DecidableEq, Repr

/-- `Transformation.satisfies_constraints`: all constraints hold. -/
def Transformation.satisfiesConstraints (t : Transformation)
    (env : List (String × List Char)) (contentFile : List Char)
    (offsetStart offsetStop : Nat) : Bool :=
  t.constraints.all (fun c => c.isSatisfiedBy env contentFile offsetStart offsetStop)

/-- `Operator` (core/operator.py:9-89). -/
structure Operator where
  name : String
  languages : List String
  transformations : List Transformation
deriving DecidableEq, Repr

/-- `Operator.supports_language` (core/operator.py:71-78): the language's
name is among the operator's language names. -/
def Operator.supportsLanguage (op : Operator) (language : Language) : Bool :=
  op.languages.contains language.name

/-- The `Operators` catalogue (config/operators.py): a dict from operator
name to operator. -/
structure Operators where
  entries : List (String × Operator)
deriving DecidableEq, Repr

/-- Iterating the catalogue yields the dict values in insertion order. -/
def Operators.values (c : Operators) : List Operator := c.entries.map (·.2)

/-- Modelled from os.path.splitext for a plain filename (no directory part):
the suffix from the last dot, where leading dots of the name do not begin a
suffix. -/
def splitextSuffix (fn : String) : String :=
  let cs := fn.toList
  let rest := cs.dropWhile (· = '.')
  let revRest := rest.reverse
  let beforeDot := revRest.takeWhile (· ≠ '.')
  if beforeDot.length = revRest.length then ⟨[]⟩
  else ⟨'.' :: beforeDot.reverse⟩

/-- `Languages.detect` (config/languages.py:119-143): the first registered
language whose file endings contain the file's suffix; `none` models the
`LanguageNotDetected` exception. -/
def Languages.detect (c : Languages) (filename : String) : Option Language :=
  (c.entries.map (·.2)).find? (fun language =>
    language.fileEndings.contains (splitextSuffix filename))

/-! ## server/installation.py -/

/-- A Rooibos match (external collaborator): a location range and the
captured environment. -/
structure RMatch where
  startLoc : Location
  stopLoc : Location
  environment : List (String × List Char)
deriving DecidableEq, Repr

/-- `Mutation` (core/mutation.py). -/
structure Mutation where
  operator : String
  transformationIndex : Nat
  location : FileLocationRange
  arguments : List (String × List Char)
deriving DecidableEq, Repr

inductive MutationsError
  | languageNotDetected
deriving DecidableEq, Repr

/-- `Installation.mutations` (server/installation.py:150-245), with the
Rooibos matcher supplied as a function from file text and match template to
the reported matches.  When the `operators` parameter is not given, the code
takes every operator of the catalogue — `list(self.operators)` — with no
language filtering; the explicitly supplied or auto-detected language is
logged but never used to restrict the search. -/
def Installation.mutationsList
    (catalogue : Operators) (languages : Languages)
    (matcher : List Char → String → List RMatch)
    (text : List Char) (filepath : String)
    (language : Option Language) (operators : Option (List Operator))
    (restrictToLines : Option (List Nat)) :
    Except MutationsError (List Mutation) :=
  let ops := match operators with
    | some given => given
    | none => catalogue.values
  let resolved := match language with
    | some l => some l
    | none => languages.detect filepath
  match resolved with
  | none => .error .languageNotDetected
  | some _lang =>
    .ok (ops.flatMap (fun op =>
      op.transformations.enum.flatMap (fun it =>
        (matcher text it.2.matchTemplate).filterMap (fun m =>
          let skip := match restrictToLines with
            | some lst => !lst.isEmpty && !lst.contains m.startLoc.line
            | none => false
          if skip then none
          else
            let offsetStart := lineColToOffset text m.startLoc.line m.startLoc.col
            let offsetStop := lineColToOffset text m.stopLoc.line m.stopLoc.col
            if it.2.satisfiesConstraints m.environment text offsetStart offsetStop
            then some ⟨op.name, it.1, ⟨filepath, ⟨m.startLoc, m.stopLoc⟩⟩,
                       m.environment⟩
            else none))))

/-- An operator registered for the c language only. -/
def opC : Operator := ⟨"op-c", ["c"], [⟨":[1] + :[2]", ":[2] + :[1]", []⟩]⟩

/-- An operator registered for the java language only. -/
def opJava : Operator := ⟨"op-java", ["java"], [⟨"x", "y", []⟩]⟩

/-- A match the collaborator reports for every template. -/
def demoMatch : RMatch := ⟨⟨1, 0⟩, ⟨1, 1⟩, []⟩

/-- C5 (the code as it stands, at the claim's failing input).  With the
operators parameter unset, `Installation.mutations` searches with every
catalogue operator: for the file foo.c — whose language resolves to c — the
java-only operator also contributes a mutation, although it does not support
the resolved language. -/
theorem mutations_uses_all_operators_regardless_of_language :
    Installation.mutationsList ⟨[("op-c", opC), ("op-java", opJava)]⟩
        ⟨[("c", langC)]⟩ (fun _ _ => [demoMatch]) ("ab".toList) "foo.c"
        none none none =
      .ok [⟨"op-c", 0, ⟨"foo.c", ⟨⟨1, 0⟩, ⟨1, 1⟩⟩⟩, []⟩,
           ⟨"op-java", 0, ⟨"foo.c", ⟨⟨1, 0⟩, ⟨1, 1⟩⟩⟩, []⟩] ∧
    Languages.detect ⟨[("c", langC)]⟩ "foo.c" = some langC ∧
    Operator.supportsLanguage opJava langC = false := by
  decide

/-! ## server/mutant.py -/

/-- `Mutant` (core/mutant.py): UUIDs are modelled as naturals. -/
structure Mutant where
  uuid : Nat
  base : String
  mutations : List Mutation
deriving DecidableEq, Repr

/-- The observable state of a `MutantManager` and its BugZoo collaborator:
the registry dict plus how many ephemeral containers have been provisioned
and destroyed. -/
structure MutantsState where
  registry : List (Nat × Mutant)
  provisioned : Nat
  destroyed : Nat
deriving DecidableEq, Repr

def lookupReg : List (Nat × Mutant) → Nat → Option Mutant
  | [], _ => none
  | (k, v) :: rest, n => if k = n then some v else lookupReg rest n

/-- The failure modes of `generate`.  `buildFailure` is `BuildFailure` of
exceptions.py — defined by the code base (and listed by the spec) but never
raised by `generate`, which performs no build step.  `unboundLocalDiff` is
the `UnboundLocalError` raised by the patch call (server/mutant.py:172),
which reads the per-file loop's local variable `diff`
(server/mutant.py:148-159): with an empty mutation list the loop never runs
and the name is never bound, so the lookup raises inside the try block. -/
inductive GenError
  | higherOrderUnsupported
  | uuidInUse
  | unboundLocalDiff
  | patchFailed
  | persistFailed
  | registerFailed
  | buildFailure
deriving DecidableEq, Repr

/-- What the collaborators would answer during one `generate` call: whether
`containers.patch`, `containers.persist` and `bugs.register` succeed, and
what a build of the mutant would report.  `generate` never performs a build,
so `buildOk` is read by no path of the model — exactly as in the source. -/
structure GenEnv where
  patchOk : Bool
  persistOk : Bool
  registerOk : Bool
  buildOk : Bool
deriving DecidableEq, Repr

/-- `MutantManager.generate` (server/mutant.py:77-206): assert at most one
mutation; assert the fresh UUID is unused; compute the replacements and the
per-file diffs (pure, before any container exists); provision an ephemeral
container; apply the patch and persist the image inside a try/finally whose
finally destroys the container; then register the mutated snapshot and
finally insert the mutant into the registry.  An exception anywhere
propagates (there is no build step and `BuildFailure` is never raised).
The patch call passes the per-file loop's local `diff`, not the aggregated
`mutant_diff`: for an empty mutation list the loop never binds it and the
call raises `UnboundLocalError` inside the try block, so no success or
registration path exists there — only for a singleton mutation list can the
patch step itself run. -/
def MutantManager.generate (env : GenEnv) (st : MutantsState) (uuid : Nat)
    (snapshotName : String) (mutations : List Mutation) :
    Except GenError Mutant × MutantsState :=
  if mutations.length > 1 then (.error .higherOrderUnsupported, st)
  else if (lookupReg st.registry uuid).isSome then (.error .uuidInUse, st)
  else
    let mutant : Mutant := ⟨uuid, snapshotName, mutations⟩
    let st₁ : MutantsState := { st with provisioned := st.provisioned + 1 }
    if mutations.isEmpty then
      (.error .unboundLocalDiff, { st₁ with destroyed := st₁.destroyed + 1 })
    else if !env.patchOk then
      (.error .patchFailed, { st₁ with destroyed := st₁.destroyed + 1 })
    else if !env.persistOk then
      (.error .persistFailed, { st₁ with destroyed := st₁.destroyed + 1 })
    else
      let st₂ : MutantsState := { st₁ with destroyed := st₁.destroyed + 1 }
      if !env.registerOk then (.error .registerFailed, st₂)
      else (.ok mutant, { st₂ with registry := st₂.registry ++ [(uuid, mutant)] })

/-- A concrete singleton mutation for the counterexample: the only mutation
list length at which `generate` can reach the persist and registration
steps. -/
def demoMutation : Mutation :=
  ⟨"op-c", 0, ⟨"foo.c", ⟨⟨1, 0⟩, ⟨1, 1⟩⟩⟩, []⟩

/-- Counterexample for C1 as stated: for a singleton mutation list, with
every collaborator step succeeding but the build collaborator reporting
failure, `generate` does not raise `BuildFailure` — it never consults the
build outcome — and the registry does gain a new entry. -/
theorem generate_ignores_build_outcome :
    (MutantManager.generate ⟨true, true, true, false⟩ ⟨[], 0, 0⟩ 7 "snap"
      [demoMutation]).1 = .ok ⟨7, "snap", [demoMutation]⟩ ∧
    (MutantManager.generate ⟨true, true, true, false⟩ ⟨[], 0, 0⟩ 7 "snap"
      [demoMutation]).2.registry = [(7, ⟨7, "snap", [demoMutation]⟩)] ∧
    (MutantManager.generate ⟨true, true, true, false⟩ ⟨[], 0, 0⟩ 7 "snap"
      [demoMutation]).1 ≠ .error .buildFailure := by
  decide

/-- C1 (amended).  For a well-formed call (at most one mutation, fresh UUID):
the ephemeral container is provisioned once and destroyed exactly once on
every exit path — the unbound-diff error of an empty mutation list, patch
failure, persist failure, registration failure, or success; on every error
exit the error propagates and the registry is left unchanged (no
`BuildFailure` is ever raised, since `generate` performs no build step); the
mutant is registered only when every step succeeds, and then exactly once. -/
theorem generate_cleanup_and_registry (env : GenEnv) (st : MutantsState)
    (uuid : Nat) (name : String) (muts : List Mutation)
    (hord : muts.length ≤ 1) (hfresh : lookupReg st.registry uuid = none) :
    ((MutantManager.generate env st uuid name muts).2.provisioned =
      st.provisioned + 1) ∧
    ((MutantManager.generate env st uuid name muts).2.destroyed =
      st.destroyed + 1) ∧
    (∀ e, (MutantManager.generate env st uuid name muts).1 = .error e →
      (MutantManager.generate env st uuid name muts).2.registry = st.registry) ∧
    ((MutantManager.generate env st uuid name muts).1 ≠ .error .buildFailure) ∧
    (∀ m, (MutantManager.generate env st uuid name muts).1 = .ok m →
      m = ⟨uuid, name, muts⟩ ∧
      (MutantManager.generate env st uuid name muts).2.registry =
        st.registry ++ [(uuid, ⟨uuid, name, muts⟩)]) := by
  obtain ⟨p, ps, rg, bo⟩ := env
  unfold MutantManager.generate
  rw [if_neg (by omega), hfresh]
  cases muts with
  | nil => simp
  | cons m rest => cases p <;> cases ps <;> cases rg <;> simp

/-- Witness for C1: the cleanup statement applied at a concrete failing-patch
call on a singleton mutation list. -/
theorem generate_cleanup_and_registry_witness :
    (MutantManager.generate ⟨false, true, true, true⟩ ⟨[], 2, 2⟩ 5 "s"
      [demoMutation]).2.destroyed = 3 ∧
    (MutantManager.generate ⟨false, true, true, true⟩ ⟨[], 2, 2⟩ 5 "s"
      [demoMutation]).1 ≠ .error .buildFailure := by
  constructor
  · exact (generate_cleanup_and_registry ⟨false, true, true, true⟩ ⟨[], 2, 2⟩ 5 "s"
      [demoMutation] (by decide) (by decide)).2.1
  · exact (generate_cleanup_and_registry ⟨false, true, true, true⟩ ⟨[], 2, 2⟩ 5 "s"
      [demoMutation] (by decide) (by decide)).2.2.2.1

inductive DelError
  | mutantNotFound
deriving DecidableEq, Repr

/-- `MutantManager.__delitem__` (server/mutant.py:49-69): look the mutant up
(a missing UUID raises `KeyError`, surfaced by the HTTP layer as
`MutantNotFound`); destroy the owned image best-effort (failures are logged
and swallowed); remove the registry entry.  `MutantManager` defines no
`clear` method — see server/mutant.py — although server/__init__.py calls
`installation.mutants.clear()` in three places. -/
def MutantManager.delete (st : MutantsState) (uuid : Nat) :
    Except DelError Unit × MutantsState :=
  match lookupReg st.registry uuid with
  | none => (.error .mutantNotFound, st)
  | some _ =>
    (.ok (), { st with registry := st.registry.filter (fun e => e.1 != uuid) })

/-- C8 (the code as it stands, at the claim's failing input).  Deleting a
UUID that is not registered raises the not-found condition and leaves the
registry unchanged — shown on the empty registry and on a one-entry
registry. -/
theorem delete_missing_mutant_not_found :
    MutantManager.delete ⟨[], 0, 0⟩ 5 = (.error .mutantNotFound, ⟨[], 0, 0⟩) ∧
    MutantManager.delete ⟨[(3, ⟨3, "s", []⟩)], 1, 1⟩ 5 =
      (.error .mutantNotFound, ⟨[(3, ⟨3, "s", []⟩)], 1, 1⟩) := by
  decide

end Boggart
